import Mathlib

/-!
Verification of the hc-ops store-inspection core against its specification.

The Rust source is shallowly embedded: each Lean definition mirrors one
function of the source (`src/retrieve.rs`, `src/retrieve/model.rs`,
`src/retrieve/crypt.rs`, `src/hc-ops/compare.rs`).  Machine integers are
modelled as `Nat`/`Int` (the source values are in `u32`/`u64`/`i64` range
everywhere the claims touch them), fallible functions return
`Except`/`Option`, and a Rust panic is modelled as an explicit third
outcome so that "returns an error" and "crashes" stay distinguishable.
-/

namespace HcOps

/-- Outcome of a fallible Rust computation: a normal `Ok` value, a
returned `Err` value, or a panic abort (e.g. an out-of-bounds slice
index).  `Result`-valued Rust code maps to `ok`/`err`; an indexing or
`unwrap` abort maps to `panicked`. -/
inductive RustOutcome (α : Type) where
  | ok (a : α)
  | err (msg : String)
  | panicked (msg : String)
deriving Repr, DecidableEq

/-- `ValidationStatus` from `src/retrieve/model.rs`. -/
inductive ValidationStatus where
  | Valid
  | Rejected
  | Abandoned
deriving Repr, DecidableEq

/-- The part of a `SignedActionHashed` value that the chain reconstructor
inspects: `as_hash()` (the action's content hash, 39 raw bytes) and
`seq()` (the action sequence number, a `u32`). -/
structure SignedActionHashed where
  hash : List Nat
  seq : Nat
deriving Repr, DecidableEq

/-- `ChainRecord` from `src/retrieve.rs`: a signed action, its validation
status, and the optional serialized entry payload. -/
structure ChainRecord where
  action : SignedActionHashed
  validation_status : ValidationStatus
  entry : Option (List Nat)
deriving Repr, DecidableEq

/-- `merge_into_chain` from `src/retrieve.rs` (lines 187-208): skip the
incoming record if its action hash is already in the chain; otherwise
insert it at the first index whose record has a strictly greater sequence
number, or append at the end when there is none. -/
def merge_into_chain (chain : List ChainRecord) (record : ChainRecord) : List ChainRecord :=
  if chain.any fun c => c.action.hash = record.action.hash then
    chain
  else
    match chain.findIdx? fun c => record.action.seq < c.action.seq with
    | some pos => chain.insertIdx pos record
    | none => chain ++ [record]

/-- The merge loop of `get_agent_chain` (`src/retrieve.rs` lines 180-182):
fold each cache record, in cache order, into the DHT chain. -/
def merge_cache_chain (chain : List ChainRecord) (cache_chain : List ChainRecord) : List ChainRecord :=
  cache_chain.foldl merge_into_chain chain

/-- A concrete chain record with a one-byte hash `[h]` and sequence
number `s`, for the spec's worked examples. -/
def mkRec (h s : Nat) : ChainRecord :=
  { action := { hash := [h], seq := s }
    validation_status := ValidationStatus.Valid
    entry := none }

/-- `UNIX_TIMESTAMP` from `kitsune2_api`: the epoch origin, as microseconds
since the UNIX epoch. -/
def UNIX_TIMESTAMP : Int := 0

/-- `time_bounds_for_slice_index` from `src/retrieve.rs` (lines 397-406),
parameterised by the opaque configured constant `UNIT_TIME` (in whole
seconds) of the replication layer (`kitsune2_dht`).  A full slice lasts
`(1 << 9) * UNIT_TIME` seconds; the bounds are returned as `Timestamp`s,
i.e. microseconds since the epoch origin. -/
def time_bounds_for_slice_index (unitTimeSecs : Nat) (sliceIndex : Nat) : Int × Int :=
  let full_slice_duration_secs : Nat := (1 <<< 9) * unitTimeSecs
  let start : Int := UNIX_TIMESTAMP + (sliceIndex * full_slice_duration_secs : Nat) * 1000000
  let stop : Int := start + (full_slice_duration_secs : Nat) * 1000000
  (start, stop)

/-- `SliceHash` from `src/retrieve/model.rs`: one row of the `SliceHash`
table.  `arc_start` and `arc_end` are `u32` coverage bounds (stored as
`i32` and cast back with `as u32` at every use), `slice_index` a `u64`
(stored as `i64`), `hash` the raw digest bytes. -/
structure SliceHash where
  arc_start : Nat
  arc_end : Nat
  slice_index : Nat
  hash : List Nat
deriving Repr, DecidableEq

/-- The key `compare_slice_hash_files` (`src/hc-ops/compare.rs`) builds
for each record: the source renders the triple as the string
`"{arc_start}-{arc_end}-{slice_index}"` of decimal numerals separated by
`-`, an injective encoding of the triple (decimal digits never contain
`-`), so the key is the triple itself. -/
def sliceKey (oh : SliceHash) : Nat × Nat × Nat :=
  (oh.arc_start, oh.arc_end, oh.slice_index)

/-- Lookup in the `HashMap` built by `.collect()` over the keyed records:
when several records share a key, the last one inserted overwrites the
earlier ones, so lookup returns the last record with the key. -/
def diffableGet (hs : List SliceHash) (k : Nat × Nat × Nat) : Option SliceHash :=
  (hs.filter fun oh => sliceKey oh = k).getLast?

/-- The key set of one file (`our_keys` / `their_keys` in the source):
the set of distinct keys of its records. -/
def keyList (hs : List SliceHash) : List (Nat × Nat × Nat) :=
  (hs.map sliceKey).dedup

/-- The `diff` column of one diff-table row, modelled structurally: the
source renders `"Only in our file"`, `"Only in their file"`, or
`"Different hashes: our hash = .., their hash = .."` with both digests
base64-encoded. -/
inductive DiffMessage where
  | onlyInOurFile
  | onlyInTheirFile
  | differentHashes (ourHash theirHash : List Nat)
deriving Repr, DecidableEq

/-- `SliceHashDiffTable` from `compare_slice_hash_files`: one reported
diff row — the coverage range (rendered from `arc_start..arc_end`), the
slice index, and the diff message. -/
structure SliceHashDiffTable where
  dht_arc : Nat × Nat
  slice_index : Nat
  diff : DiffMessage
deriving Repr, DecidableEq

/-- Build one diff-table row from the record it reports. -/
def entryOf (oh : SliceHash) (m : DiffMessage) : SliceHashDiffTable :=
  { dht_arc := (oh.arc_start, oh.arc_end), slice_index := oh.slice_index, diff := m }

/-- The key a diff-table row is about. -/
def entryKey (e : SliceHashDiffTable) : Nat × Nat × Nat :=
  (e.dht_arc.1, e.dht_arc.2, e.slice_index)

/-- `compare_slice_hash_files` from `src/hc-ops/compare.rs` (lines
28-123), after both files are loaded: key both sides, then emit one row
per key only in our file, one per key only in their file, and one per
common key whose two digests differ (carrying both digests).  The source
iterates `HashSet` difference/intersection in unspecified order; the
model iterates each key set in first-file order, so every set-level and
per-key statement below is order-independent. -/
def compare_slice_hash_files (our_hashes their_hashes : List SliceHash) :
    List SliceHashDiffTable :=
  let our_keys := keyList our_hashes
  let their_keys := keyList their_hashes
  let our_extra := our_keys.filter fun k => ¬ k ∈ their_keys
  let their_extra := their_keys.filter fun k => ¬ k ∈ our_keys
  let common_keys := our_keys.filter fun k => k ∈ their_keys
  (our_extra.filterMap fun k =>
    (diffableGet our_hashes k).map fun oh => entryOf oh DiffMessage.onlyInOurFile) ++
  (their_extra.filterMap fun k =>
    (diffableGet their_hashes k).map fun oh => entryOf oh DiffMessage.onlyInTheirFile) ++
  (common_keys.filterMap fun k =>
    match diffableGet our_hashes k, diffableGet their_hashes k with
    | some oh1, some oh2 =>
        if oh1.hash ≠ oh2.hash then
          some (entryOf oh1 (DiffMessage.differentHashes oh1.hash oh2.hash))
        else
          none
    | _, _ => none)

/-- The records of one file that actually participate in the comparison:
for each distinct key, the last record inserted under that key. -/
def lastPerKey (hs : List SliceHash) : List SliceHash :=
  (keyList hs).filterMap (diffableGet hs)

/-- One row of the `Action` table (`src/retrieve/schema.rs`), restricted
to the columns the agent-discovery queries touch: the action hash
(primary key), the action type discriminant string, and the author key
bytes. -/
structure DbActionRow where
  hash : List Nat
  typ : String
  author : List Nat
deriving Repr, DecidableEq

/-- One row of the `DhtOp` table, restricted to the columns the
agent-discovery queries touch: the nullable `action_hash` foreign key
(the declared join column `joinable!(DhtOp -> Action (action_hash))`),
the nullable validation status, and the nullable integration timestamp
(`i64` microseconds). -/
structure DbDhtOpRow where
  action_hash : Option (List Nat)
  validation_status : Option ValidationStatus
  when_integrated : Option Int
deriving Repr, DecidableEq

/-- The contents of one store's `Action` and `DhtOp` tables. -/
structure Db where
  actions : List DbActionRow
  ops : List DbDhtOpRow
deriving Repr

/-- `list_dht_agent_keys` from `src/retrieve.rs` (lines 135-149):
`SELECT DISTINCT author FROM Action INNER JOIN DhtOp ON
DhtOp.action_hash = Action.hash WHERE Action.type = 'AgentValidationPkg'
AND DhtOp.validation_status = 0`.  A SQL `=` filter on the nullable
status column excludes NULL rows; the query has no filter on
`when_integrated`.  SQL `DISTINCT` without `ORDER BY` returns the
distinct values in unspecified order; the model picks a canonical
deduplication. -/
def list_dht_agent_keys (db : Db) : List (List Nat) :=
  (db.actions.flatMap fun a =>
    db.ops.filterMap fun op =>
      if op.action_hash = some a.hash ∧ a.typ = "AgentValidationPkg" ∧
          op.validation_status = some ValidationStatus.Valid then
        some a.author
      else
        none).dedup

/-- `list_cache_agent_keys` from `src/retrieve.rs` (lines 151-162):
`SELECT DISTINCT author FROM Action WHERE type = 'AgentValidationPkg'`,
with no validation or integration filter. -/
def list_cache_agent_keys (db : Db) : List (List Nat) :=
  (db.actions.filterMap fun a =>
    if a.typ = "AgentValidationPkg" then some a.author else none).dedup

/-- `AgentPubKey::try_from_raw_39` from `holo_hash`, modelled at its
boundary: exactly 39 raw bytes are accepted. -/
def try_from_raw_39 (v : List Nat) : Except String (List Nat) :=
  if v.length = 39 then Except.ok v else Except.error "invalid agent key length"

/-- The decoding loop at the end of `list_discovered_agents`: push each
decoded key, propagating the first failure via `?`. -/
def decode_agent_keys : List (List Nat) → Except String (List (List Nat))
  | [] => Except.ok []
  | v :: rest =>
    match try_from_raw_39 v with
    | Except.error e => Except.error e
    | Except.ok k =>
      match decode_agent_keys rest with
      | Except.error e => Except.error e
      | Except.ok out => Except.ok (k :: out)

/-- `list_discovered_agents` from `src/retrieve.rs` (lines 114-133): the
DHT-store keys collected into a `HashSet`, extended with the cache-store
keys, then decoded.  A `HashSet` iterates in unspecified order; the model
picks a canonical deduplicated ordering of the union. -/
def list_discovered_agents (dht_db cache_db : Db) : Except String (List (List Nat)) :=
  decode_agent_keys ((list_dht_agent_keys dht_db ++ list_cache_agent_keys cache_db).dedup)

/-- `DhtOpType` from `src/retrieve/model.rs`: the nine operation kinds. -/
inductive DhtOpType where
  | StoreRecord
  | StoreEntry
  | RegisterAgentActivity
  | RegisterUpdatedContent
  | RegisterUpdatedRecord
  | RegisterDeletedBy
  | RegisterDeletedEntryAction
  | RegisterAddLink
  | RegisterRemoveLink
deriving Repr, DecidableEq

/-- The nine known discriminant strings, in source order. -/
def dhtOpTypeDiscriminants : List String :=
  ["StoreRecord", "StoreEntry", "RegisterAgentActivity", "RegisterUpdatedContent",
    "RegisterUpdatedRecord", "RegisterDeletedBy", "RegisterDeletedEntryAction",
    "RegisterAddLink", "RegisterRemoveLink"]

/-- `DhtOpType::from_sql` from `src/retrieve/model.rs` (lines 67-86): the
stored text is matched against the nine discriminants; anything else is
the error `Unknown DhtOpType: {typ}`. -/
def DhtOpType.from_sql (v : String) : Except String DhtOpType :=
  if v = "StoreRecord" then Except.ok DhtOpType.StoreRecord
  else if v = "StoreEntry" then Except.ok DhtOpType.StoreEntry
  else if v = "RegisterAgentActivity" then Except.ok DhtOpType.RegisterAgentActivity
  else if v = "RegisterUpdatedContent" then Except.ok DhtOpType.RegisterUpdatedContent
  else if v = "RegisterUpdatedRecord" then Except.ok DhtOpType.RegisterUpdatedRecord
  else if v = "RegisterDeletedBy" then Except.ok DhtOpType.RegisterDeletedBy
  else if v = "RegisterDeletedEntryAction" then Except.ok DhtOpType.RegisterDeletedEntryAction
  else if v = "RegisterAddLink" then Except.ok DhtOpType.RegisterAddLink
  else if v = "RegisterRemoveLink" then Except.ok DhtOpType.RegisterRemoveLink
  else Except.error ("Unknown DhtOpType: " ++ v)

/-- Decoding of the nullable `type` column of one stored `DhtOp` row
(`DbDhtOp.typ : Option<DhtOpType>`): NULL decodes to `none`, text via
`DhtOpType::from_sql`. -/
def decodeDhtOpTyp (raw : Option String) : Except String (Option DhtOpType) :=
  match raw with
  | none => Except.ok none
  | some s => (DhtOpType.from_sql s).map some

/-- The row decoding performed inside diesel's `load` for
`get_all_dht_ops`, restricted to the `type` column that C6 concerns: each
row is decoded in turn and the first decode failure fails the whole
load — no partially decoded list is ever produced. -/
def load_dht_op_rows : List (Option String) → Except String (List (Option DhtOpType))
  | [] => Except.ok []
  | r :: rest =>
    match decodeDhtOpTyp r with
    | Except.error e => Except.error e
    | Except.ok t =>
      match load_dht_op_rows rest with
      | Except.error e => Except.error e
      | Except.ok ts => Except.ok (t :: ts)

/-- `get_all_dht_ops` from `src/retrieve.rs` (lines 70-72), over the
`type` column: `schema::DhtOp::table.load(conn).unwrap()` — a failed load
is `unwrap`ped, aborting with the decode error's message rather than
returning. -/
def get_all_dht_ops (rows : List (Option String)) : RustOutcome (List (Option DhtOpType)) :=
  match load_dht_op_rows rows with
  | Except.ok l => RustOutcome.ok l
  | Except.error e => RustOutcome.panicked e

/-- Sizes from `sodoken`: XSalsa20-Poly1305 nonce, authentication tag and
key widths, and the Argon2id salt width, in bytes. -/
def XSALSA_NONCEBYTES : Nat := 24

/-- XSalsa20-Poly1305 authentication tag width in bytes. -/
def XSALSA_MACBYTES : Nat := 16

/-- XSalsa20-Poly1305 key width in bytes. -/
def XSALSA_KEYBYTES : Nat := 32

/-- Argon2id salt width in bytes. -/
def ARGON2_ID_SALTBYTES : Nat := 16

/-- `Key` from `src/retrieve/crypt.rs`: the decrypted store key and the
salt read from the blob. -/
structure Key where
  key : List Nat
  salt : List Nat
deriving Repr, DecidableEq

/-- `Key::load` from `src/retrieve/crypt.rs` (lines 23-69), parameterised
by the external primitives it calls: `b64decode` (the `base64` crate's
URL-safe no-pad decoder, `None` on malformed input), `argon2id`
(`sodoken::argon2::blocking_argon2id` over passphrase and salt, `None` on
failure), and `xsalsa_open` (`legacy_xsalsa_open_easy` authenticated
decryption of cipher+tag with nonce and secret, `None` on authentication
failure).  The source copies `key[72..88]` (salt), `key[..24]` (nonce)
and `key[24..72]` (cipher+tag) at fixed offsets with no length check:
when the decoded blob is shorter than 88 bytes the very first slice
`key[salt_index..salt_index + ARGON2_ID_SALTBYTES]` is out of bounds and
the function panics instead of returning. -/
def Key.load (b64decode : String → Option (List Nat))
    (argon2id : List Nat → List Nat → Option (List Nat))
    (xsalsa_open : List Nat → List Nat → List Nat → Option (List Nat))
    (fileContent : String) (passphrase : List Nat) : RustOutcome Key :=
  match b64decode fileContent with
  | none => RustOutcome.err "invalid base64 in key blob"
  | some key =>
    let salt_index := XSALSA_NONCEBYTES + XSALSA_MACBYTES + XSALSA_KEYBYTES
    if salt_index + ARGON2_ID_SALTBYTES ≤ key.length then
      let salt := (key.drop salt_index).take ARGON2_ID_SALTBYTES
      match argon2id passphrase salt with
      | none => RustOutcome.err "argon2id failure"
      | some secret =>
        let nonce := key.take XSALSA_NONCEBYTES
        let cipher := (key.drop XSALSA_NONCEBYTES).take (XSALSA_MACBYTES + XSALSA_KEYBYTES)
        match xsalsa_open cipher nonce secret with
        | none => RustOutcome.err "Failed to decrypt key"
        | some k => RustOutcome.ok { key := k, salt := salt }
    else
      RustOutcome.panicked "range end index out of range in key blob slice"

/-- `load_database_key` from `src/retrieve.rs` (lines 28-39): when the
`databases/db.key` file does not exist (`db_key = none`) the result is
`Ok(None)` — the store is simply not encrypted; otherwise the key is
loaded from the file's content. -/
def load_database_key (b64decode : String → Option (List Nat))
    (argon2id : List Nat → List Nat → Option (List Nat))
    (xsalsa_open : List Nat → List Nat → List Nat → Option (List Nat))
    (db_key : Option String) (passphrase : List Nat) : RustOutcome (Option Key) :=
  match db_key with
  | none => RustOutcome.ok none
  | some content =>
    match Key.load b64decode argon2id xsalsa_open content passphrase with
    | RustOutcome.ok k => RustOutcome.ok (some k)
    | RustOutcome.err e => RustOutcome.err e
    | RustOutcome.panicked e => RustOutcome.panicked e

/-- The character class consumed by the filler parser
`many1(alt((space1, tag("├"), tag("│"), tag("┤"))))` in
`load_hash_file` (`src/hc-ops/compare.rs`): `space1` whitespace or one of
the three box-drawing characters used by the table renderer. -/
def isFillChar (c : Char) : Bool :=
  c = ' ' ∨ c = '\t' ∨ c = '\n' ∨ c = '\r' ∨ c = '├' ∨ c = '│' ∨ c = '┤'

/-- The filler parser: consumes a maximal nonempty run of filler
characters, failing on input that does not start with one. -/
def fill1 : List Char → Option (List Char)
  | [] => none
  | c :: cs => if isFillChar c then some (cs.dropWhile isFillChar) else none

/-- `tag(pat)` / `char(c)`: the input must start with exactly `pat`;
consumes it. -/
def expectChars (pat cs : List Char) : Option (List Char) :=
  if cs.take pat.length = pat then some (cs.drop pat.length) else none

/-- `digit1`: consumes a maximal nonempty run of ASCII digits. -/
def digit1 (cs : List Char) : Option (List Char × List Char) :=
  let ds := cs.takeWhile fun c => c.isDigit
  if ds.isEmpty then none else some (ds, cs.drop ds.length)

/-- The numeric value of a run of ASCII digits, as `str::parse`
computes it. -/
def natOfDigits (ds : List Char) : Nat :=
  ds.foldl (fun n c => n * 10 + (c.toNat - 48)) 0

/-- `take_until(" ")`: consumes the input up to (not including) the first
space, failing when the rest of the input contains no space. -/
def takeUntilSpace (cs : List Char) : Option (List Char × List Char) :=
  let pre := cs.takeWhile fun c => ¬ c = ' '
  if pre.length = cs.length then none else some (pre, cs.drop pre.length)

/-- The line parser of `load_hash_file` (`src/hc-ops/compare.rs`, lines
131-148): filler, `Arc(`, a `u32`, `", "`, a `u32`, `)`, filler, a
`u64`, filler, then base64 digest text terminated by a space.
`str::parse::<u32>`/`<u64>` fail above the type's maximum; `b64` is the
`base64` crate's standard-alphabet decoder, kept as a parameter of the
embedding.  Any remaining input after the digest is ignored, and any
failure makes the whole line non-matching. -/
def parse_slice_hash_line (b64 : String → Option (List Nat)) (line : String) :
    Option SliceHash := do
  let cs1 ← fill1 line.toList
  let cs2 ← expectChars "Arc(".toList cs1
  let (ds1, cs3) ← digit1 cs2
  let arcStart ← if natOfDigits ds1 < 2 ^ 32 then some (natOfDigits ds1) else none
  let cs4 ← expectChars ", ".toList cs3
  let (ds2, cs5) ← digit1 cs4
  let arcEnd ← if natOfDigits ds2 < 2 ^ 32 then some (natOfDigits ds2) else none
  let cs6 ← expectChars ")".toList cs5
  let cs7 ← fill1 cs6
  let (ds3, cs8) ← digit1 cs7
  let sliceIndex ← if natOfDigits ds3 < 2 ^ 64 then some (natOfDigits ds3) else none
  let cs9 ← fill1 cs8
  let (hcs, _) ← takeUntilSpace cs9
  let hash ← b64 (String.mk hcs)
  some { arc_start := arcStart, arc_end := arcEnd, slice_index := sliceIndex, hash := hash }

/-- The line loop of `load_hash_file`: a non-matching line is skipped
(`continue`), a matching line's record is pushed. -/
def load_hash_lines (b64 : String → Option (List Nat)) : List String → List SliceHash
  | [] => []
  | l :: rest =>
    match parse_slice_hash_line b64 l with
    | none => load_hash_lines b64 rest
    | some r => r :: load_hash_lines b64 rest

/-- `load_hash_file` from `src/hc-ops/compare.rs` (lines 125-159), given
the file's content as its list of lines (the only error path in the
source is failing to read the file at all). -/
def load_hash_file (b64 : String → Option (List Nat)) (contents : List String) :
    Except String (List SliceHash) :=
  Except.ok (load_hash_lines b64 contents)

/-- A stand-in for the external base64 decoder in the worked examples:
accepts exactly the text `QUJD` (base64 of the bytes `ABC`). -/
def b64ex : String → Option (List Nat) :=
  fun s => if s = "QUJD" then some [65, 66, 67] else none

/-! ## Theorems -/

theorem mergeCore_eq_takeWhile_dropWhile (x : ChainRecord) (p : ChainRecord → Bool) :
    ∀ l : List ChainRecord,
      (match l.findIdx? p with
        | some pos => l.insertIdx pos x
        | none => l ++ [x]) =
      l.takeWhile (fun c => !(p c)) ++ x :: l.dropWhile (fun c => !(p c))
  | [] => by simp [List.findIdx?_nil]
  | c :: cs => by
    by_cases hc : p c
    · simp [List.findIdx?_cons, hc, List.takeWhile_cons, List.dropWhile_cons]
    · have ih := mergeCore_eq_takeWhile_dropWhile x p cs
      simp only [List.findIdx?_cons, hc, if_false, List.findIdx?_succ]
      simp only [List.takeWhile_cons, List.dropWhile_cons, hc, Bool.not_false, if_true,
        Bool.false_eq_true, if_false]
      cases hfi : cs.findIdx? p with
      | none =>
        simp only [hfi, Option.map_none'] at ih ⊢
        simpa using ih
      | some i =>
        simp only [hfi, Option.map_some'] at ih ⊢
        simpa [List.insertIdx_succ_cons] using ih

/-- C1: chain merge ordering.  For every chain and incoming record whose
action hash is not already present: (a) the merged chain splits the
original at the first position whose sequence number is strictly greater
than the incoming one and places the record there (appending when no
position qualifies); (b) spec example: base with sequence numbers
`[0,1,3,4]` plus a fresh record with sequence number `2` yields sequence
order `[0,1,2,3,4]` with the new record at index 2; (c) among equal
sequence numbers the incoming record lands after all existing equals:
base `[0,1,2,3,4]` plus a fresh record with sequence number `2` yields
`[0,1,2,2,3,4]` with the new record at index 3. -/
theorem merge_into_chain_ordering :
    (∀ (chain : List ChainRecord) (record : ChainRecord),
      (∀ c ∈ chain, c.action.hash ≠ record.action.hash) →
      merge_into_chain chain record =
        chain.takeWhile (fun c => !(record.action.seq < c.action.seq : Bool)) ++
          record :: chain.dropWhile (fun c => !(record.action.seq < c.action.seq : Bool))) ∧
    (merge_into_chain [mkRec 0 0, mkRec 1 1, mkRec 3 3, mkRec 4 4] (mkRec 2 2) =
      [mkRec 0 0, mkRec 1 1, mkRec 2 2, mkRec 3 3, mkRec 4 4]) ∧
    (merge_into_chain [mkRec 0 0, mkRec 1 1, mkRec 2 2, mkRec 3 3, mkRec 4 4] (mkRec 9 2) =
      [mkRec 0 0, mkRec 1 1, mkRec 2 2, mkRec 9 2, mkRec 3 3, mkRec 4 4]) := by
  refine ⟨?_, by decide, by decide⟩
  intro chain record h
  have hany : (chain.any fun c => c.action.hash = record.action.hash) = false := by
    simp only [List.any_eq_false, decide_eq_true_eq]
    exact h
  unfold merge_into_chain
  rw [hany]
  simp only [Bool.false_eq_true, if_false]
  exact mergeCore_eq_takeWhile_dropWhile record _ chain

/-- Closed witness for `merge_into_chain_ordering`: its general clause
applied to the concrete base chain `[0,1,3,4]` and incoming record of
sequence number 2 and fresh hash. -/
theorem merge_into_chain_ordering_witness :
    merge_into_chain [mkRec 0 0, mkRec 1 1, mkRec 3 3, mkRec 4 4] (mkRec 2 2) =
      ([mkRec 0 0, mkRec 1 1, mkRec 3 3, mkRec 4 4].takeWhile
          (fun c => !((mkRec 2 2).action.seq < c.action.seq : Bool))) ++
        mkRec 2 2 :: ([mkRec 0 0, mkRec 1 1, mkRec 3 3, mkRec 4 4].dropWhile
          (fun c => !((mkRec 2 2).action.seq < c.action.seq : Bool))) :=
  merge_into_chain_ordering.1 [mkRec 0 0, mkRec 1 1, mkRec 3 3, mkRec 4 4] (mkRec 2 2)
    (by decide)

/-- C2: chain merge deduplication and idempotence.  Merging a record whose
action hash already occurs anywhere in the chain leaves the chain
unchanged, and folding in an empty cache list returns the chain
identically. -/
theorem merge_into_chain_dedup_idempotent :
    (∀ (chain : List ChainRecord) (record : ChainRecord),
      (∃ c ∈ chain, c.action.hash = record.action.hash) →
      merge_into_chain chain record = chain) ∧
    (∀ chain : List ChainRecord, merge_cache_chain chain [] = chain) := by
  constructor
  · intro chain record h
    have hany : (chain.any fun c => c.action.hash = record.action.hash) = true := by
      simp only [List.any_eq_true, decide_eq_true_eq]
      exact h
    unfold merge_into_chain
    rw [hany]
    simp
  · intro chain
    rfl

/-- Closed witness for `merge_into_chain_dedup_idempotent`: merging a
record already present (by hash) in a five-record chain leaves it
unchanged. -/
theorem merge_into_chain_dedup_idempotent_witness :
    merge_into_chain [mkRec 0 0, mkRec 1 1, mkRec 2 2, mkRec 3 3, mkRec 4 4] (mkRec 2 2) =
      [mkRec 0 0, mkRec 1 1, mkRec 2 2, mkRec 3 3, mkRec 4 4] :=
  merge_into_chain_dedup_idempotent.1 _ (mkRec 2 2) ⟨mkRec 2 2, by decide, rfl⟩

theorem mem_keyList {hs : List SliceHash} {k : Nat × Nat × Nat} :
    k ∈ keyList hs ↔ ∃ oh ∈ hs, sliceKey oh = k := by
  simp only [keyList, List.mem_dedup, List.mem_map]

theorem diffableGet_some {hs : List SliceHash} {k : Nat × Nat × Nat} {oh : SliceHash}
    (h : diffableGet hs k = some oh) : oh ∈ hs ∧ sliceKey oh = k := by
  have hm := List.mem_of_mem_getLast? h
  rw [List.mem_filter] at hm
  exact ⟨hm.1, by simpa using hm.2⟩

theorem diffableGet_isSome {hs : List SliceHash} {k : Nat × Nat × Nat} :
    (diffableGet hs k).isSome ↔ k ∈ keyList hs := by
  rw [diffableGet, List.getLast?_isSome, mem_keyList]
  constructor
  · intro h
    rcases List.exists_mem_of_ne_nil _ h with ⟨oh, hm⟩
    rw [List.mem_filter] at hm
    exact ⟨oh, hm.1, by simpa using hm.2⟩
  · rintro ⟨oh, hm, hk⟩
    intro hnil
    have : oh ∈ hs.filter fun oh => sliceKey oh = k := by
      rw [List.mem_filter]
      exact ⟨hm, by simpa using hk⟩
    rw [hnil] at this
    exact absurd this (List.not_mem_nil oh)

theorem entryKey_entryOf (oh : SliceHash) (m : DiffMessage) :
    entryKey (entryOf oh m) = sliceKey oh := rfl

theorem mem_compare_iff (ours theirs : List SliceHash) (e : SliceHashDiffTable) :
    e ∈ compare_slice_hash_files ours theirs ↔
      (∃ oh, diffableGet ours (entryKey e) = some oh ∧ entryKey e ∉ keyList theirs ∧
        e = entryOf oh DiffMessage.onlyInOurFile) ∨
      (∃ oh, diffableGet theirs (entryKey e) = some oh ∧ entryKey e ∉ keyList ours ∧
        e = entryOf oh DiffMessage.onlyInTheirFile) ∨
      (∃ oh1 oh2, diffableGet ours (entryKey e) = some oh1 ∧
        diffableGet theirs (entryKey e) = some oh2 ∧ oh1.hash ≠ oh2.hash ∧
        e = entryOf oh1 (DiffMessage.differentHashes oh1.hash oh2.hash)) := by
  unfold compare_slice_hash_files
  simp only [List.mem_append, List.mem_filterMap, List.mem_filter, Option.map_eq_some',
    decide_eq_true_eq]
  constructor
  · intro h
    rcases h with (h | h) | h
    · rcases h with ⟨k, ⟨hko, hkt⟩, oh, hget, heq⟩
      subst heq
      have hk := (diffableGet_some hget).2
      refine Or.inl ⟨oh, ?_, ?_, rfl⟩
      · rw [entryKey_entryOf, hk]; exact hget
      · rw [entryKey_entryOf, hk]; exact hkt
    · rcases h with ⟨k, ⟨hkt, hko⟩, oh, hget, heq⟩
      subst heq
      have hk := (diffableGet_some hget).2
      refine Or.inr (Or.inl ⟨oh, ?_, ?_, rfl⟩)
      · rw [entryKey_entryOf, hk]; exact hget
      · rw [entryKey_entryOf, hk]; exact hko
    · rcases h with ⟨k, ⟨hko, hkt⟩, hmatch⟩
      cases h1 : diffableGet ours k with
      | none => rw [h1] at hmatch; exact absurd hmatch (by simp)
      | some oh1 =>
        cases h2 : diffableGet theirs k with
        | none => rw [h1, h2] at hmatch; exact absurd hmatch (by simp)
        | some oh2 =>
          rw [h1, h2] at hmatch
          dsimp only at hmatch
          by_cases hne : oh1.hash ≠ oh2.hash
          · rw [if_pos hne] at hmatch
            have he : e = entryOf oh1 (DiffMessage.differentHashes oh1.hash oh2.hash) :=
              (Option.some.injEq _ _).mp hmatch.symm
            subst he
            have hk := (diffableGet_some h1).2
            refine Or.inr (Or.inr ⟨oh1, oh2, ?_, ?_, hne, rfl⟩)
            · rw [entryKey_entryOf, hk]; exact h1
            · rw [entryKey_entryOf, hk]; exact h2
          · rw [if_neg hne] at hmatch
            exact absurd hmatch (by simp)
  · intro h
    rcases h with ⟨oh, hget, hkt, heq⟩ | ⟨oh, hget, hko, heq⟩ | ⟨oh1, oh2, h1, h2, hne, heq⟩
    · subst heq
      dsimp only [entryKey_entryOf] at hget hkt
      refine Or.inl (Or.inl ⟨sliceKey oh, ⟨?_, hkt⟩, oh, hget, rfl⟩)
      exact diffableGet_isSome.mp (by rw [hget]; rfl)
    · subst heq
      dsimp only [entryKey_entryOf] at hget hko
      refine Or.inl (Or.inr ⟨sliceKey oh, ⟨?_, hko⟩, oh, hget, rfl⟩)
      exact diffableGet_isSome.mp (by rw [hget]; rfl)
    · subst heq
      dsimp only [entryKey_entryOf] at h1 h2
      refine Or.inr ⟨sliceKey oh1, ⟨?_, ?_⟩, ?_⟩
      · exact diffableGet_isSome.mp (by rw [h1]; rfl)
      · exact diffableGet_isSome.mp (by rw [h2]; rfl)
      · rw [h1, h2]
        dsimp only
        rw [if_pos hne]

theorem compare_eq_nil_of_same_digests (ours theirs : List SliceHash)
    (hmap : ∀ k, (diffableGet ours k).map SliceHash.hash =
      (diffableGet theirs k).map SliceHash.hash) :
    compare_slice_hash_files ours theirs = [] := by
  have hkeys : ∀ k, k ∈ keyList ours ↔ k ∈ keyList theirs := by
    intro k
    rw [← diffableGet_isSome, ← diffableGet_isSome]
    have h := congrArg Option.isSome (hmap k)
    simpa using h
  unfold compare_slice_hash_files
  dsimp only
  have h1 : ((keyList ours).filter fun k => ¬ k ∈ keyList theirs) = [] :=
    List.filter_eq_nil_iff.mpr fun k hk => by simp [(hkeys k).mp hk]
  have h2 : ((keyList theirs).filter fun k => ¬ k ∈ keyList ours) = [] :=
    List.filter_eq_nil_iff.mpr fun k hk => by simp [(hkeys k).mpr hk]
  rw [h1, h2]
  simp only [List.filterMap_nil, List.nil_append, List.append_nil]
  apply List.filterMap_eq_nil_iff.mpr
  intro k hk
  rw [List.mem_filter] at hk
  obtain ⟨hko, hkt⟩ := hk
  obtain ⟨o1, ho1⟩ := Option.isSome_iff_exists.mp (diffableGet_isSome.mpr hko)
  obtain ⟨o2, ho2⟩ := Option.isSome_iff_exists.mp
    (diffableGet_isSome.mpr (by simpa using hkt))
  have hh := hmap k
  rw [ho1, ho2] at hh
  simp only [Option.map_some', Option.some.injEq] at hh
  rw [ho1, ho2]
  dsimp only
  rw [if_neg (by simp [hh])]

theorem map_key_filterMap_eq {κ α : Type} (key : α → κ) (f : κ → Option α) :
    ∀ l : List κ, (∀ k ∈ l, ∃ a, f k = some a ∧ key a = k) →
      (l.filterMap f).map key = l
  | [], _ => rfl
  | c :: cs, hf => by
    obtain ⟨a, ha, hk⟩ := hf c (List.mem_cons_self c cs)
    rw [List.filterMap_cons, ha, List.map_cons, hk,
      map_key_filterMap_eq key f cs fun k hk' => hf k (List.mem_cons_of_mem _ hk')]

theorem map_key_filterMap_sublist {κ α : Type} (key : α → κ) (f : κ → Option α) :
    ∀ l : List κ, (∀ k ∈ l, ∀ a, f k = some a → key a = k) →
      ((l.filterMap f).map key).Sublist l
  | [], _ => List.Sublist.refl []
  | c :: cs, hf => by
    rw [List.filterMap_cons]
    cases ha : f c with
    | none =>
      exact (map_key_filterMap_sublist key f cs
        fun k hk' => hf k (List.mem_cons_of_mem _ hk')).cons c
    | some a =>
      rw [List.map_cons, hf c (List.mem_cons_self c cs) a ha]
      exact (map_key_filterMap_sublist key f cs
        fun k hk' => hf k (List.mem_cons_of_mem _ hk')).cons₂ c

theorem filter_key_filterMap {κ α : Type} [DecidableEq κ] (key : α → κ) (f : κ → Option α) :
    ∀ l : List κ, l.Nodup → (∀ k ∈ l, ∀ a, f k = some a → key a = k) → ∀ k : κ,
      ((l.filterMap f).filter fun a => key a = k) =
        if k ∈ l then (f k).toList else []
  | [], _, _, k => by simp
  | c :: cs, hnd, hf, k => by
    have hkey := hf c (List.mem_cons_self c cs)
    have ih := filter_key_filterMap key f cs (List.Nodup.of_cons hnd)
      (fun k' hk' => hf k' (List.mem_cons_of_mem _ hk')) k
    rw [List.filterMap_cons]
    cases ha : f c with
    | none =>
      rw [ih]
      by_cases hkc : k = c
      · subst hkc
        have hkcs : k ∉ cs := (List.nodup_cons.mp hnd).1
        rw [if_neg hkcs, if_pos (List.mem_cons_self k cs), ha]
        rfl
      · simp only [List.mem_cons, hkc, false_or]
    | some a =>
      have hac : key a = c := hkey a ha
      rw [List.filter_cons]
      by_cases hkc : k = c
      · subst hkc
        have hkcs : k ∉ cs := (List.nodup_cons.mp hnd).1
        have hrest : ((cs.filterMap f).filter fun a => key a = k) = [] := by
          apply List.filter_eq_nil_iff.mpr
          intro b hb
          rw [List.mem_filterMap] at hb
          obtain ⟨k', hk', hbk'⟩ := hb
          have hb' : key b = k' := hf k' (List.mem_cons_of_mem _ hk') b hbk'
          simp only [hb', decide_eq_true_eq]
          intro hkk'
          exact hkcs (hkk' ▸ hk')
        rw [if_pos (by simp [hac]), hrest, if_pos (List.mem_cons_self k cs), ha]
        rfl
      · rw [if_neg (by simp only [hac, decide_eq_true_eq]; exact fun h => hkc h.symm), ih]
        simp only [List.mem_cons, hkc, false_or]

theorem getLast?_toList {α : Type} (o : Option α) : o.toList.getLast? = o := by
  cases o <;> rfl

theorem diffableGet_lastPerKey (hs : List SliceHash) (k : Nat × Nat × Nat) :
    diffableGet (lastPerKey hs) k = diffableGet hs k := by
  have hf : ∀ k' ∈ keyList hs, ∀ a, diffableGet hs k' = some a → sliceKey a = k' :=
    fun k' _ a ha => (diffableGet_some ha).2
  have h := filter_key_filterMap sliceKey (diffableGet hs) (keyList hs)
    (List.nodup_dedup _) hf k
  show ((lastPerKey hs).filter fun oh => sliceKey oh = k).getLast? = diffableGet hs k
  rw [lastPerKey, h]
  by_cases hk : k ∈ keyList hs
  · rw [if_pos hk, getLast?_toList]
  · rw [if_neg hk]
    have : ¬ (diffableGet hs k).isSome := fun hs' => hk (diffableGet_isSome.mp hs')
    rw [Option.not_isSome_iff_eq_none] at this
    rw [this]
    rfl

theorem keyList_lastPerKey (hs : List SliceHash) : keyList (lastPerKey hs) = keyList hs := by
  have hf : ∀ k ∈ keyList hs, ∃ a, diffableGet hs k = some a ∧ sliceKey a = k := by
    intro k hk
    obtain ⟨a, ha⟩ := Option.isSome_iff_exists.mp (diffableGet_isSome.mpr hk)
    exact ⟨a, ha, (diffableGet_some ha).2⟩
  show ((lastPerKey hs).map sliceKey).dedup = keyList hs
  rw [lastPerKey, map_key_filterMap_eq sliceKey (diffableGet hs) (keyList hs) hf]
  exact List.dedup_eq_self.mpr (List.nodup_dedup _)

theorem compare_keys_nodup (ours theirs : List SliceHash) :
    ((compare_slice_hash_files ours theirs).map entryKey).Nodup := by
  unfold compare_slice_hash_files
  rw [List.map_append, List.map_append]
  have hA1 : ∀ k ∈ ((keyList ours).filter fun k => ¬ k ∈ keyList theirs),
      ∃ a, ((diffableGet ours k).map fun oh => entryOf oh DiffMessage.onlyInOurFile) = some a ∧
        entryKey a = k := by
    intro k hk
    rw [List.mem_filter] at hk
    obtain ⟨oh, hoh⟩ := Option.isSome_iff_exists.mp (diffableGet_isSome.mpr hk.1)
    exact ⟨entryOf oh DiffMessage.onlyInOurFile, by rw [hoh]; rfl,
      by rw [entryKey_entryOf]; exact (diffableGet_some hoh).2⟩
  have hB1 : ∀ k ∈ ((keyList theirs).filter fun k => ¬ k ∈ keyList ours),
      ∃ a, ((diffableGet theirs k).map fun oh => entryOf oh DiffMessage.onlyInTheirFile) = some a ∧
        entryKey a = k := by
    intro k hk
    rw [List.mem_filter] at hk
    obtain ⟨oh, hoh⟩ := Option.isSome_iff_exists.mp (diffableGet_isSome.mpr hk.1)
    exact ⟨entryOf oh DiffMessage.onlyInTheirFile, by rw [hoh]; rfl,
      by rw [entryKey_entryOf]; exact (diffableGet_some hoh).2⟩
  have hA := map_key_filterMap_eq entryKey _ _ hA1
  have hB := map_key_filterMap_eq entryKey _ _ hB1
  rw [hA, hB]
  have hCf : ∀ k ∈ ((keyList ours).filter fun k => k ∈ keyList theirs), ∀ a,
      (match diffableGet ours k, diffableGet theirs k with
        | some oh1, some oh2 =>
            if oh1.hash ≠ oh2.hash then
              some (entryOf oh1 (DiffMessage.differentHashes oh1.hash oh2.hash))
            else
              none
        | _, _ => none) = some a → entryKey a = k := by
    intro k _ a ha
    cases h1 : diffableGet ours k with
    | none => rw [h1] at ha; exact absurd ha (by simp)
    | some oh1 =>
      cases h2 : diffableGet theirs k with
      | none => rw [h1, h2] at ha; exact absurd ha (by simp)
      | some oh2 =>
        rw [h1, h2] at ha
        dsimp only at ha
        by_cases hne : oh1.hash ≠ oh2.hash
        · rw [if_pos hne] at ha
          have := (Option.some.injEq _ _).mp ha
          rw [← this, entryKey_entryOf]
          exact (diffableGet_some h1).2
        · rw [if_neg hne] at ha
          exact absurd ha (by simp)
  have hC := map_key_filterMap_sublist entryKey _ _ hCf
  rw [List.nodup_append, List.nodup_append]
  refine ⟨⟨List.Nodup.filter _ (List.nodup_dedup _), List.Nodup.filter _ (List.nodup_dedup _),
    ?_⟩, hC.nodup (List.Nodup.filter _ (List.nodup_dedup _)), ?_⟩
  · intro x hx hx'
    rw [List.mem_filter] at hx hx'
    exact (by simpa using hx.2 : ¬ x ∈ keyList theirs) hx'.1
  · intro x hx hx'
    have hxc := hC.mem hx'
    rw [List.mem_filter] at hxc
    rcases List.mem_append.mp hx with hx1 | hx2
    · rw [List.mem_filter] at hx1
      exact (by simpa using hx1.2 : ¬ x ∈ keyList theirs) (by simpa using hxc.2)
    · rw [List.mem_filter] at hx2
      exact (by simpa using hx2.2 : ¬ x ∈ keyList ours) hxc.1

theorem compare_lastPerKey_eq (ours theirs : List SliceHash) :
    compare_slice_hash_files (lastPerKey ours) (lastPerKey theirs) =
      compare_slice_hash_files ours theirs := by
  have ho : diffableGet (lastPerKey ours) = diffableGet ours :=
    funext (diffableGet_lastPerKey ours)
  have ht : diffableGet (lastPerKey theirs) = diffableGet theirs :=
    funext (diffableGet_lastPerKey theirs)
  unfold compare_slice_hash_files
  rw [keyList_lastPerKey, keyList_lastPerKey, ho, ht]

/-- C3: time partition boundaries.  Slice 0 starts at the epoch origin;
every slice spans exactly `2^9 = 512` multiples of the configured base
unit duration, slice `n` covering
`(origin + n * full, origin + (n+1) * full)` microseconds where
`full = 512 * unit` seconds; and slice `n+1` starts exactly where slice
`n` ends, so consecutive slices have no gaps and no overlaps. -/
theorem time_bounds_for_slice_index_partition :
    (∀ u : Nat, (time_bounds_for_slice_index u 0).1 = UNIX_TIMESTAMP) ∧
    (∀ u n : Nat,
      time_bounds_for_slice_index u n =
        (UNIX_TIMESTAMP + ((n * (2 ^ 9 * u) : Nat) * 1000000 : Int),
          UNIX_TIMESTAMP + (((n + 1) * (2 ^ 9 * u) : Nat) * 1000000 : Int))) ∧
    (∀ u n : Nat,
      (time_bounds_for_slice_index u (n + 1)).1 = (time_bounds_for_slice_index u n).2) := by
  refine ⟨fun u => by simp [time_bounds_for_slice_index], fun u n => ?_, fun u n => ?_⟩
  · simp only [time_bounds_for_slice_index, UNIX_TIMESTAMP, Nat.shiftLeft_eq,
      Prod.mk.injEq]
    constructor
    · push_cast
      ring
    · push_cast
      ring
  · simp only [time_bounds_for_slice_index, UNIX_TIMESTAMP, Nat.shiftLeft_eq]
    push_cast
    ring

/-- C4: slice-hash diff classification.  A row appears in the diff output
exactly for: a key only in our file (reported "only in our file"), a key
only in their file, or a key on both sides whose two digests differ (one
mismatch row carrying both digests).  Keys present on both sides with
identical digests produce no row, so two inputs with identical
key-to-digest mappings diff to empty; and the spec's concrete instance —
left `(0,100,5)` with digest `[1]` against right `(0,100,5)` with digest
`[2]` — gives exactly one mismatch row carrying both digests, while
identical digests give zero rows. -/
theorem compare_slice_hash_files_classification :
    (∀ (ours theirs : List SliceHash) (e : SliceHashDiffTable),
      e ∈ compare_slice_hash_files ours theirs ↔
        (∃ oh, diffableGet ours (entryKey e) = some oh ∧ entryKey e ∉ keyList theirs ∧
          e = entryOf oh DiffMessage.onlyInOurFile) ∨
        (∃ oh, diffableGet theirs (entryKey e) = some oh ∧ entryKey e ∉ keyList ours ∧
          e = entryOf oh DiffMessage.onlyInTheirFile) ∨
        (∃ oh1 oh2, diffableGet ours (entryKey e) = some oh1 ∧
          diffableGet theirs (entryKey e) = some oh2 ∧ oh1.hash ≠ oh2.hash ∧
          e = entryOf oh1 (DiffMessage.differentHashes oh1.hash oh2.hash))) ∧
    (∀ ours theirs : List SliceHash,
      (∀ k, (diffableGet ours k).map SliceHash.hash =
        (diffableGet theirs k).map SliceHash.hash) →
      compare_slice_hash_files ours theirs = []) ∧
    (compare_slice_hash_files [⟨0, 100, 5, [1]⟩] [⟨0, 100, 5, [2]⟩] =
      [⟨(0, 100), 5, DiffMessage.differentHashes [1] [2]⟩]) ∧
    (compare_slice_hash_files [⟨0, 100, 5, [1]⟩] [⟨0, 100, 5, [1]⟩] = []) :=
  ⟨mem_compare_iff, compare_eq_nil_of_same_digests, by decide, by decide⟩

/-- Closed witness for `compare_slice_hash_files_classification`: its
empty-diff clause applied to a concrete one-record file against itself. -/
theorem compare_slice_hash_files_classification_witness :
    compare_slice_hash_files [⟨7, 9, 3, [4, 2]⟩] [⟨7, 9, 3, [4, 2]⟩] = [] :=
  compare_slice_hash_files_classification.2.1 [⟨7, 9, 3, [4, 2]⟩] [⟨7, 9, 3, [4, 2]⟩]
    fun _ => rfl

/-- C10: within-file duplicate-key collapse.  Only the last record
inserted under each key participates in the comparison — replacing each
file by its per-key last records leaves the diff output unchanged — the
diff output has at most one row per key, and a digest disagreement
between two same-key records inside one file is never reported: with our
file holding `(0,100,5)`-records with digests `[1]` then `[2]` and their
file holding digest `[2]`, the diff is empty. -/
theorem compare_within_file_duplicate_collapse :
    (∀ ours theirs : List SliceHash,
      compare_slice_hash_files (lastPerKey ours) (lastPerKey theirs) =
        compare_slice_hash_files ours theirs) ∧
    (∀ ours theirs : List SliceHash,
      ((compare_slice_hash_files ours theirs).map entryKey).Nodup) ∧
    (compare_slice_hash_files [⟨0, 100, 5, [1]⟩, ⟨0, 100, 5, [2]⟩] [⟨0, 100, 5, [2]⟩] = []) :=
  ⟨compare_lastPerKey_eq, compare_keys_nodup, by decide⟩

theorem decode_agent_keys_ok :
    ∀ l : List (List Nat), (∀ v ∈ l, v.length = 39) → decode_agent_keys l = Except.ok l
  | [], _ => rfl
  | v :: rest, h => by
    unfold decode_agent_keys try_from_raw_39
    rw [if_pos (h v (List.mem_cons_self v rest)),
      decode_agent_keys_ok rest fun v' hv' => h v' (List.mem_cons_of_mem _ hv')]

theorem mem_list_dht_agent_keys {db : Db} {k : List Nat} :
    k ∈ list_dht_agent_keys db ↔
      ∃ a ∈ db.actions, ∃ op ∈ db.ops, op.action_hash = some a.hash ∧
        a.typ = "AgentValidationPkg" ∧ op.validation_status = some ValidationStatus.Valid ∧
        a.author = k := by
  simp only [list_dht_agent_keys, List.mem_dedup, List.mem_flatMap, List.mem_filterMap]
  constructor
  · rintro ⟨a, ha, op, hop, hif⟩
    split_ifs at hif with hc
    exact ⟨a, ha, op, hop, hc.1, hc.2.1, hc.2.2, (Option.some.injEq _ _).mp hif⟩
  · rintro ⟨a, ha, op, hop, h1, h2, h3, h4⟩
    exact ⟨a, ha, op, hop, by rw [if_pos ⟨h1, h2, h3⟩, h4]⟩

theorem mem_list_cache_agent_keys {db : Db} {k : List Nat} :
    k ∈ list_cache_agent_keys db ↔
      ∃ a ∈ db.actions, a.typ = "AgentValidationPkg" ∧ a.author = k := by
  simp only [list_cache_agent_keys, List.mem_dedup, List.mem_filterMap]
  constructor
  · rintro ⟨a, ha, hif⟩
    split_ifs at hif with hc
    exact ⟨a, ha, hc, (Option.some.injEq _ _).mp hif⟩
  · rintro ⟨a, ha, h1, h2⟩
    exact ⟨a, ha, by rw [if_pos h1, h2]⟩

/-- C5: agent discovery filters.  Under the store's data-model invariant
that an operation's validation status and integration timestamp are both
set or both unset (spec §3, and the source comment "Isn't null if
`when_integrated` is set"), and with well-formed 39-byte author keys,
`list_discovered_agents` succeeds with a duplicate-free list whose
members are exactly the union of: authors of `AgentValidationPkg`
actions in the DHT store whose joined operation is valid and integrated,
and authors of `AgentValidationPkg` actions in the cache store with no
such filter. -/
theorem list_discovered_agents_union (dht_db cache_db : Db)
    (hinv : ∀ op ∈ dht_db.ops, op.validation_status.isSome ↔ op.when_integrated.isSome)
    (h39d : ∀ a ∈ dht_db.actions, a.author.length = 39)
    (h39c : ∀ a ∈ cache_db.actions, a.author.length = 39) :
    ∃ out, list_discovered_agents dht_db cache_db = Except.ok out ∧ out.Nodup ∧
      ∀ k, k ∈ out ↔
        ((∃ a ∈ dht_db.actions, ∃ op ∈ dht_db.ops, op.action_hash = some a.hash ∧
            a.typ = "AgentValidationPkg" ∧ op.validation_status = some ValidationStatus.Valid ∧
            op.when_integrated.isSome ∧ a.author = k) ∨
          (∃ a ∈ cache_db.actions, a.typ = "AgentValidationPkg" ∧ a.author = k)) := by
  have h39 : ∀ v ∈ (list_dht_agent_keys dht_db ++ list_cache_agent_keys cache_db).dedup,
      v.length = 39 := by
    intro v hv
    rw [List.mem_dedup, List.mem_append] at hv
    rcases hv with hv | hv
    · obtain ⟨a, ha, _, _, _, _, _, hav⟩ := mem_list_dht_agent_keys.mp hv
      rw [← hav]
      exact h39d a ha
    · obtain ⟨a, ha, _, hav⟩ := mem_list_cache_agent_keys.mp hv
      rw [← hav]
      exact h39c a ha
  refine ⟨_, decode_agent_keys_ok _ h39, List.nodup_dedup _, ?_⟩
  intro k
  rw [List.mem_dedup, List.mem_append, mem_list_dht_agent_keys, mem_list_cache_agent_keys]
  constructor
  · rintro (⟨a, ha, op, hop, h1, h2, h3, h4⟩ | h)
    · refine Or.inl ⟨a, ha, op, hop, h1, h2, h3, ?_, h4⟩
      exact (hinv op hop).mp (by rw [h3]; rfl)
    · exact Or.inr h
  · rintro (⟨a, ha, op, hop, h1, h2, h3, _, h4⟩ | h)
    · exact Or.inl ⟨a, ha, op, hop, h1, h2, h3, h4⟩
    · exact Or.inr h

/-- Closed witness for `list_discovered_agents_union`: a DHT store with
one validated, integrated `AgentValidationPkg` action and a cache store
with another. -/
theorem list_discovered_agents_union_witness :
    ∃ out,
      list_discovered_agents
        { actions := [⟨[1], "AgentValidationPkg", List.replicate 39 7⟩],
          ops := [⟨some [1], some ValidationStatus.Valid, some 5⟩] }
        { actions := [⟨[2], "AgentValidationPkg", List.replicate 39 8⟩], ops := [] } =
          Except.ok out ∧ out.Nodup ∧
      ∀ k, k ∈ out ↔
        ((∃ a ∈ [(⟨[1], "AgentValidationPkg", List.replicate 39 7⟩ : DbActionRow)],
            ∃ op ∈ [(⟨some [1], some ValidationStatus.Valid, some 5⟩ : DbDhtOpRow)],
            op.action_hash = some a.hash ∧
            a.typ = "AgentValidationPkg" ∧ op.validation_status = some ValidationStatus.Valid ∧
            op.when_integrated.isSome ∧ a.author = k) ∨
          (∃ a ∈ [(⟨[2], "AgentValidationPkg", List.replicate 39 8⟩ : DbActionRow)],
            a.typ = "AgentValidationPkg" ∧ a.author = k)) :=
  list_discovered_agents_union _ _ (by decide) (by decide) (by decide)

theorem from_sql_unknown (s : String) (hs : ¬ s ∈ dhtOpTypeDiscriminants) :
    DhtOpType.from_sql s = Except.error ("Unknown DhtOpType: " ++ s) := by
  simp only [dhtOpTypeDiscriminants, List.mem_cons, List.not_mem_nil, or_false, not_or] at hs
  obtain ⟨h1, h2, h3, h4, h5, h6, h7, h8, h9⟩ := hs
  simp [DhtOpType.from_sql, h1, h2, h3, h4, h5, h6, h7, h8, h9]

theorem load_dht_op_rows_error :
    ∀ rows : List (Option String),
      (∃ s, some s ∈ rows ∧ ∃ e, DhtOpType.from_sql s = Except.error e) →
      ∃ e, load_dht_op_rows rows = Except.error e := by
  intro rows
  induction rows with
  | nil => rintro ⟨s, hs, _⟩; exact absurd hs (List.not_mem_nil _)
  | cons r rest ih =>
    rintro ⟨s, hs, e, he⟩
    cases hd : decodeDhtOpTyp r with
    | error e' => exact ⟨e', by unfold load_dht_op_rows; rw [hd]⟩
    | ok t =>
      have hrest : some s ∈ rest := by
        rcases List.mem_cons.mp hs with hr | hr
        · exfalso
          rw [← hr] at hd
          unfold decodeDhtOpTyp at hd
          dsimp only at hd
          rw [he] at hd
          simp [Except.map] at hd
        · exact hr
      obtain ⟨e'', he''⟩ := ih ⟨s, hrest, e, he⟩
      exact ⟨e'', by unfold load_dht_op_rows; rw [hd, he'']⟩

/-- C6: decode strictness.  For every list of stored rows containing a
`type` column value that is not one of the nine known discriminants:
decoding that value fails with an error identifying it
(`Unknown DhtOpType: {typ}`), the whole listing aborts (the source
`unwrap`s the failed load, carrying the decode error's message), and no
row list is ever returned — in particular no result with the offending
row silently dropped. -/
theorem dht_op_decode_strictness (rows : List (Option String)) (s : String)
    (hmem : some s ∈ rows) (hunk : ¬ s ∈ dhtOpTypeDiscriminants) :
    DhtOpType.from_sql s = Except.error ("Unknown DhtOpType: " ++ s) ∧
    (∃ e, get_all_dht_ops rows = RustOutcome.panicked e) ∧
    ∀ l, get_all_dht_ops rows ≠ RustOutcome.ok l := by
  have hf := from_sql_unknown s hunk
  obtain ⟨e, he⟩ := load_dht_op_rows_error rows ⟨s, hmem, _, hf⟩
  refine ⟨hf, ⟨e, ?_⟩, ?_⟩
  · unfold get_all_dht_ops
    rw [he]
  · intro l hl
    unfold get_all_dht_ops at hl
    rw [he] at hl
    exact absurd hl (by simp)

/-- Closed witness for `dht_op_decode_strictness`: a two-row store whose
second row holds the unknown discriminant `"Bogus"`. -/
theorem dht_op_decode_strictness_witness :
    DhtOpType.from_sql "Bogus" = Except.error ("Unknown DhtOpType: " ++ "Bogus") ∧
    (∃ e, get_all_dht_ops [some "StoreRecord", some "Bogus"] = RustOutcome.panicked e) ∧
    ∀ l, get_all_dht_ops [some "StoreRecord", some "Bogus"] ≠ RustOutcome.ok l :=
  dht_op_decode_strictness [some "StoreRecord", some "Bogus"] "Bogus" (by decide) (by decide)

/-- C7: key derivation failure modes.  With the key blob file absent,
`load_database_key` succeeds with "no key" (`Ok(None)`); with a present,
well-formed blob whose authenticated decryption fails (e.g. a wrong
passphrase), `Key::load` returns exactly the error
`Failed to decrypt key` and never returns any key value — there is no
zero-length, default or partial key and no retry path. -/
theorem load_database_key_failure_modes :
    (∀ (b64 : String → Option (List Nat)) a2 xo pass,
      load_database_key b64 a2 xo none pass = RustOutcome.ok none) ∧
    (∀ (b64 : String → Option (List Nat)) a2 xo content pass keyBytes secret,
      b64 content = some keyBytes →
      XSALSA_NONCEBYTES + XSALSA_MACBYTES + XSALSA_KEYBYTES + ARGON2_ID_SALTBYTES ≤
        keyBytes.length →
      a2 pass ((keyBytes.drop (XSALSA_NONCEBYTES + XSALSA_MACBYTES + XSALSA_KEYBYTES)).take
        ARGON2_ID_SALTBYTES) = some secret →
      xo ((keyBytes.drop XSALSA_NONCEBYTES).take (XSALSA_MACBYTES + XSALSA_KEYBYTES))
        (keyBytes.take XSALSA_NONCEBYTES) secret = none →
      Key.load b64 a2 xo content pass = RustOutcome.err "Failed to decrypt key" ∧
      ∀ k, Key.load b64 a2 xo content pass ≠ RustOutcome.ok k) := by
  constructor
  · intro b64 a2 xo pass
    rfl
  · intro b64 a2 xo content pass keyBytes secret hb hlen harg hxo
    have hload : Key.load b64 a2 xo content pass = RustOutcome.err "Failed to decrypt key" := by
      unfold Key.load
      rw [hb]
      dsimp only
      rw [if_pos hlen, harg]
      dsimp only
      rw [hxo]
    exact ⟨hload, fun k hk => by rw [hload] at hk; exact absurd hk (by simp)⟩

/-- Closed witness for `load_database_key_failure_modes`: no key file
yields `Ok(None)`, and an 88-byte blob whose authenticated decryption
fails yields exactly the decryption error. -/
theorem load_database_key_failure_modes_witness :
    load_database_key (fun _ => some (List.replicate 88 0))
        (fun _ _ => some (List.replicate 32 0)) (fun _ _ _ => none) none [] =
      RustOutcome.ok none ∧
    Key.load (fun _ => some (List.replicate 88 0))
        (fun _ _ => some (List.replicate 32 0)) (fun _ _ _ => none) "blob" [] =
      RustOutcome.err "Failed to decrypt key" :=
  ⟨load_database_key_failure_modes.1 _ _ _ _,
    (load_database_key_failure_modes.2 (fun _ => some (List.replicate 88 0))
      (fun _ _ => some (List.replicate 32 0)) (fun _ _ _ => none) "blob" []
      (List.replicate 88 0) (List.replicate 32 0) rfl (by decide) rfl rfl).1⟩

/-- C8: the code panics on a short key blob instead of returning an
error.  Evaluating the embedded `Key::load` on a blob whose decoded
content is empty (shorter than the fixed
nonce + ciphertext-with-tag + salt layout of 88 bytes): the fixed-offset
slice `key[72..88]` is out of bounds, so the outcome is a panic — not a
returned error value and not a key, contradicting the claim (and spec
§4.1/§7) that malformed blobs are a reported, typed fatal error. -/
theorem Key_load_short_blob_panics :
    Key.load (fun _ => some []) (fun _ _ => none) (fun _ _ _ => none) "" [] =
      RustOutcome.panicked "range end index out of range in key blob slice" ∧
    (∀ k, Key.load (fun _ => some []) (fun _ _ => none) (fun _ _ _ => none) "" [] ≠
      RustOutcome.ok k) ∧
    (∀ e, Key.load (fun _ => some []) (fun _ _ => none) (fun _ _ _ => none) "" [] ≠
      RustOutcome.err e) := by
  refine ⟨rfl, ?_, ?_⟩ <;> intro x hx <;>
    simp [Key.load, XSALSA_NONCEBYTES, XSALSA_MACBYTES, XSALSA_KEYBYTES,
      ARGON2_ID_SALTBYTES] at hx

theorem load_hash_lines_eq_filterMap (b64 : String → Option (List Nat)) :
    ∀ ls : List String, load_hash_lines b64 ls = ls.filterMap (parse_slice_hash_line b64)
  | [] => rfl
  | l :: rest => by
    unfold load_hash_lines
    rw [List.filterMap_cons, load_hash_lines_eq_filterMap b64 rest]
    cases parse_slice_hash_line b64 l <;> rfl

/-- C9: tolerant dump parser.  `load_hash_file` always succeeds,
returning exactly the records of the lines the shape parser accepts and
silently skipping every non-matching line; an input in which no line
matches yields the empty record list and success, never an error.
Worked examples: a well-formed table row parses to its record, and a
dump of table borders, headers and garbage loads as `Ok([])`. -/
theorem load_hash_file_tolerant :
    (∀ (b64 : String → Option (List Nat)) (ls : List String),
      load_hash_file b64 ls = Except.ok (ls.filterMap (parse_slice_hash_line b64))) ∧
    (∀ (b64 : String → Option (List Nat)) (ls : List String),
      (∀ l ∈ ls, parse_slice_hash_line b64 l = none) →
      load_hash_file b64 ls = Except.ok []) ∧
    (∀ (b64 : String → Option (List Nat)) (ls : List String),
      ∃ out, load_hash_file b64 ls = Except.ok out) ∧
    (parse_slice_hash_line b64ex "│ Arc(0, 100) │ 5 │ QUJD │" =
      some ⟨0, 100, 5, [65, 66, 67]⟩) ∧
    (load_hash_file b64ex
      ["┌──────┬───────┬──────┐", "│ arc  │ index │ hash │", "", "garbage"] =
      Except.ok []) := by
  refine ⟨?_, ?_, ?_, by decide, rfl⟩
  · intro b64 ls
    unfold load_hash_file
    rw [load_hash_lines_eq_filterMap]
  · intro b64 ls h
    unfold load_hash_file
    rw [load_hash_lines_eq_filterMap, List.filterMap_eq_nil_iff.mpr h]
  · intro b64 ls
    exact ⟨_, rfl⟩

/-- Closed witness for `load_hash_file_tolerant`: a systematically
malformed one-line dump loads as success with zero records. -/
theorem load_hash_file_tolerant_witness :
    load_hash_file b64ex ["not a data line"] = Except.ok [] :=
  load_hash_file_tolerant.2.1 b64ex ["not a data line"] (by decide)

end HcOps
